import Mathlib

/-! # Verification of the Astro island hydration pipeline

Shallow embedding of `packages/astro/src/runtime/server/hydration.ts`:
the directive extractor `extractDirectives` and the island script builder
`generateHydrateScript`, together with proofs of the specified properties.

Property bags are modelled as ordered entry lists over keys that are
either JavaScript strings or symbols, mirroring the iteration the source
performs (`Object.entries` over string keys in order, then
`Object.getOwnPropertySymbols`).  JavaScript object assignment is
modelled by in-place update of the unique existing entry, else append.
-/

namespace AstroHydration

/-- Model of the JavaScript runtime values that flow through the property
bags of `extractDirectives` (arrays are not needed by the code under
study; plain objects are ordered string-keyed entry lists, as produced by
the template compiler). -/
inductive JSValue where
  | undefined
  | null
  | bool (b : Bool)
  | num (n : Int)
  | str (s : String)
  | obj (entries : List (String × JSValue))

/-- Model of `typeof` on the modelled values (`typeof null` is `"object"`
in JavaScript). -/
def JSValue.typeName : JSValue → String
  | .undefined => "undefined"
  | .null => "object"
  | .bool _ => "boolean"
  | .num _ => "number"
  | .str _ => "string"
  | .obj _ => "object"

/-- True exactly on string values, as `typeof v === 'string'`. -/
def JSValue.isString : JSValue → Bool
  | .str _ => true
  | _ => false

/-- JavaScript truthiness of a modelled value. -/
def JSValue.truthy : JSValue → Bool
  | .undefined => false
  | .null => false
  | .bool b => b
  | .num n => decide (n ≠ 0)
  | .str s => decide (s ≠ "")
  | .obj _ => true

/-- Modelled from the spec: `isNullish` of `runtime/server/util.js` (that
file is not among the sources); per the spec a value is nullish when it
is `null` or `undefined`. -/
def isNullish : JSValue → Bool
  | .null => true
  | .undefined => true
  | _ => false

/-- Modelled from the spec: `isObject` of `runtime/server/util.js` (that
file is not among the sources); per the spec the `client:params` value
must be a plain structured object. -/
def isObject : JSValue → Bool
  | .obj _ => true
  | _ => false

/-- Property keys of a bag: JavaScript string keys or symbol keys
(symbols modelled by a numeric identity). -/
inductive PKey where
  | str (s : String)
  | sym (id : Nat)
  deriving DecidableEq

/-- JavaScript property assignment `bag[k] = v` on an ordered entry list:
update the unique existing entry in place, else append at the end. -/
def setProp {κ : Type} [DecidableEq κ] : List (κ × JSValue) → κ → JSValue → List (κ × JSValue)
  | [], k, v => [(k, v)]
  | e :: rest, k, v => if e.1 = k then (k, v) :: rest else e :: setProp rest k v

/-- Property lookup on an ordered entry list. -/
def lookupProp {κ : Type} [DecidableEq κ] (bag : List (κ × JSValue)) (k : κ) : Option JSValue :=
  (bag.find? (fun e => decide (e.1 = k))).map Prod.snd

/-- JavaScript member access `o.k` on a modelled object entry list; a
missing key reads as `undefined`. -/
def getField (entries : List (String × JSValue)) (k : String) : JSValue :=
  ((entries.find? (fun e => decide (e.1 = k))).map Prod.snd).getD .undefined

/-- Model of JavaScript `s.split(sep)` for a single-character separator,
grouping the character list of `s` (the source only uses
`key.split(':')`). -/
def splitCharList (sep : Char) : List Char → List (List Char)
  | [] => [[]]
  | c :: cs =>
    if c = sep then [] :: splitCharList sep cs
    else
      match splitCharList sep cs with
      | g :: gs => (c :: g) :: gs
      | [] => [[c]]

/-- String form of `splitCharList`, the model of `s.split(sep)`. -/
def jsSplit (s : String) (sep : Char) : List String :=
  (splitCharList sep s.data).map (fun l => String.mk l)

/-- Model of `key.split(':')[1]` as used by the extractor; every key
reaching this computation contains a colon, so the out-of-range
JavaScript `undefined` cannot occur and the default is irrelevant. -/
def splitSecond (key : String) : String :=
  (jsSplit key ':').getD 1 ""

/-- Model of JavaScript `s.startsWith(p)`. -/
def strStartsWith (s p : String) : Bool :=
  p.data.isPrefixOf s.data

/-- Hydration record built by the extractor (`HydrationMetadata` in the
source; the nested `componentExport.value` wrapper is flattened into the
single field `componentExportValue`). -/
structure HydrationMetadata where
  directive : String
  value : JSValue
  componentUrl : JSValue
  componentExportValue : JSValue

/-- Hydration record created lazily on first sight of a `client:` key. -/
def initHydration : HydrationMetadata :=
  { directive := "", value := .str "", componentUrl := .str "", componentExportValue := .str "" }

/-- Result shape of `extractDirectives` (`ExtractedProps` in the source). -/
structure ExtractedProps where
  isPage : Bool
  hydration : Option HydrationMetadata
  props : List (PKey × JSValue)
  propsWithoutTransitionAttributes : List (PKey × JSValue)

/-- Frozen list of transition attribute names
(`transitionDirectivesToCopyOnIsland` in the source). -/
def transitionDirectivesToCopyOnIsland : List String :=
  ["data-astro-transition-scope", "data-astro-transition-persist"]

/-- Errors thrown by `extractDirectives`.  The three `client:params`
shape errors keep the `typeof` payload their messages interpolate (the
stringified-object payloads are abstracted to the error kind); the
unknown-directive error keeps its full message because its format is
part of the specified behaviour. -/
inductive ExtractError where
  | invalidParamsNotObject (typeName : String)
  | invalidParamsShape
  | invalidParamsDirectiveNotString (typeName : String)
  | unknownDirective (message : String)
  | missingMediaQuery
  deriving DecidableEq

/-- Known directive names formatted for the unknown-directive message
(`Array.from(clientDirectives.keys()).map(d => `client:` + d).join(', ')`). -/
def formatHydrationMethods (registry : List String) : String :=
  String.intercalate ", " (registry.map (fun d => "client:" ++ d))

/-- Canonical-directive handling: the `default` case of the source's
switch, also reached by fall-through from `client:params`.  The record
fields are written before the checks, exactly as in the source; a thrown
error discards the state either way. -/
def defaultCase (st : ExtractedProps) (h : HydrationMetadata) (key : String) (value : JSValue)
    (registry : List String) : Except ExtractError ExtractedProps :=
  let h' := { h with directive := splitSecond key, value := value }
  if !(registry.contains h'.directive) then
    .error (.unknownDirective ("Error: invalid hydration directive \"" ++ key ++
      "\". Supported hydration methods: " ++ formatHydrationMethods registry))
  else if h'.directive = "media" && !(h'.value.isString) then
    .error .missingMediaQuery
  else
    .ok { st with hydration := some h' }

/-- Handling of the `client:params` key: a nullish value is skipped;
otherwise the value must be an object whose keys are only `directive`
(required, a string) and optionally `value`; on success the synthesized
key `client:<directive>` with the `value` field falls through to the
canonical-directive handling. -/
def paramsCase (st : ExtractedProps) (h : HydrationMetadata) (value : JSValue)
    (registry : List String) : Except ExtractError ExtractedProps :=
  if isNullish value then .ok st
  else
    match value with
    | .obj entries =>
      if entries.any (fun e => !(e.1 == "directive") && !(e.1 == "value")) then
        .error .invalidParamsShape
      else
        match getField entries "directive" with
        | .str dir => defaultCase st h ("client:" ++ dir) (getField entries "value") registry
        | other => .error (.invalidParamsDirectiveNotString other.typeName)
    | _ => .error (.invalidParamsNotObject value.typeName)

/-- Processing of one `client:` key: the lazy creation of the hydration
record followed by the switch of the source. -/
def clientStep (st0 : ExtractedProps) (key : String) (value : JSValue)
    (registry : List String) : Except ExtractError ExtractedProps :=
  let h := st0.hydration.getD initHydration
  let st := { st0 with hydration := some h }
  if key = "client:component-path" then
    .ok { st with hydration := some { h with componentUrl := value } }
  else if key = "client:component-export" then
    .ok { st with hydration := some { h with componentExportValue := value } }
  else if key = "client:component-hydration" then
    .ok st
  else if key = "client:display-name" then
    .ok st
  else if key = "client:params" then
    paramsCase st h value registry
  else
    defaultCase st h key value registry

/-- Leading `server:` check of the loop body: exactly `server:root` flips
`isPage`; every other `server:` key is inert here and, not being a
`client:` key, is still copied into the output bags below. -/
def serverMark (st : ExtractedProps) (key : String) : ExtractedProps :=
  if strStartsWith key "server:" then
    if key = "server:root" then { st with isPage := true } else st
  else st

/-- Processing of one string-keyed entry of the input bag: the body of
the `for (let [key, value] of Object.entries(inputProps))` loop.  The
`else` of the source attaches to the `client:` check, so every
non-`client:` key (`server:` keys included) is copied into the output
bags. -/
def stringStep (st : ExtractedProps) (key : String) (value : JSValue)
    (registry : List String) : Except ExtractError ExtractedProps :=
  let st1 := serverMark st key
  if strStartsWith key "client:" then
    clientStep st1 key value registry
  else
    .ok { st1 with
      props := setProp st1.props (.str key) value,
      propsWithoutTransitionAttributes :=
        if transitionDirectivesToCopyOnIsland.contains key then
          st1.propsWithoutTransitionAttributes
        else
          setProp st1.propsWithoutTransitionAttributes (.str key) value }

/-- Main loop of `extractDirectives` over the string-keyed entries. -/
def extractLoop (registry : List String) :
    ExtractedProps → List (String × JSValue) → Except ExtractError ExtractedProps
  | st, [] => .ok st
  | st, (k, v) :: rest =>
    match stringStep st k v registry with
    | .ok st' => extractLoop registry st' rest
    | .error e => .error e

/-- Final pass copying every symbol-keyed entry of the input into a bag
(`for (const sym of Object.getOwnPropertySymbols(inputProps))`). -/
def addSyms (bag : List (PKey × JSValue)) (syms : List (Nat × JSValue)) : List (PKey × JSValue) :=
  syms.foldl (fun b e => setProp b (.sym e.1) e.2) bag

/-- Input property bag: the string-keyed entries in the order
`Object.entries` yields them, and the symbol-keyed entries in the order
`Object.getOwnPropertySymbols` yields them. -/
structure InputProps where
  strEntries : List (String × JSValue)
  symEntries : List (Nat × JSValue)

/-- Initial extraction state of the source:
`{ isPage: false, hydration: null, props: {}, propsWithoutTransitionAttributes: {} }`. -/
def initExtracted : ExtractedProps :=
  { isPage := false, hydration := none, props := [],
    propsWithoutTransitionAttributes := [] }

/-- Shallow embedding of `extractDirectives(inputProps, clientDirectives)`;
the registry is the known-directive-name set in iteration order. -/
def extractDirectives (input : InputProps) (registry : List String) :
    Except ExtractError ExtractedProps :=
  match extractLoop registry initExtracted input.strEntries with
  | .error e => .error e
  | .ok ex =>
    .ok { ex with
      props := addSyms ex.props input.symEntries,
      propsWithoutTransitionAttributes :=
        addSyms ex.propsWithoutTransitionAttributes input.symEntries }

/-- Renderer capabilities consumed by the island script builder; in the
source `clientEntrypoint` is an optional string and the builder tests it
for truthiness (absent or empty means no client entry point). -/
structure SSRLoadedRenderer where
  clientEntrypoint : Option String

/-- Options of `generateHydrateScript` (`HydrateScriptOptions` in the
source); `attrs` are the optional caller-supplied extra attributes. -/
structure HydrateScriptOptions where
  renderer : SSRLoadedRenderer
  astroId : String
  props : List (PKey × JSValue)
  attrs : Option (List (String × String))

/-- Component metadata consumed by the builder (`AstroComponentMetadata`
in the source, with `componentExport.value` flattened). -/
structure ComponentMetadata where
  hydrate : String
  componentUrl : String
  componentExportValue : String
  displayName : String
  hydrateArgs : JSValue

/-- External collaborators of the builder, trusted at signature level per
the spec: the HTML escaper, the props serializer, `JSON.stringify` of the
`opts` object, and `decodeURI`.  Their sources are not part of the
repository excerpt; the claims hold for every choice of them. -/
structure Collaborators where
  escapeHTML : String → String
  serializeProps : List (PKey × JSValue) → ComponentMetadata → String
  stringifyOpts : String → JSValue → String
  decodeURI : String → String

/-- Error thrown by `generateHydrateScript` (`AstroErrorData.NoMatchingImport`,
the `MissingComponentExport` failure of the spec). -/
inductive HydrateError where
  | noMatchingImport (displayName : String)
  deriving DecidableEq

/-- Island descriptor handed back to the renderer (`SSRElement`). -/
structure SSRElement where
  children : String
  props : List (String × JSValue)

/-- JavaScript truthiness of the optional `clientEntrypoint` string. -/
def truthyEntry : Option String → Bool
  | none => false
  | some s => decide (s ≠ "")

/-- Shallow embedding of `generateHydrateScript(scriptOptions, metadata)`.
The asynchronous `result.resolve` collaborator is modelled by the pure
function `resolve`; the first component of the result is the ordered
trace of arguments passed to `resolve`, capturing which resolution side
effects were performed and in what order. -/
def generateHydrateScript (C : Collaborators) (resolve : String → String)
    (scriptOptions : HydrateScriptOptions) (metadata : ComponentMetadata) :
    List String × Except HydrateError SSRElement :=
  if metadata.componentExportValue = "" then
    ([], .error (.noMatchingImport metadata.displayName))
  else
    let island0 : List (String × JSValue) := [("uid", .str scriptOptions.astroId)]
    let island1 :=
      match scriptOptions.attrs with
      | none => island0
      | some attrs =>
        attrs.foldl (fun isl kv => setProp isl kv.1 (.str (C.escapeHTML kv.2))) island0
    let componentUrlArg := C.decodeURI metadata.componentUrl
    let island2 := setProp island1 "component-url" (.str (resolve componentUrlArg))
    let stage3 :=
      if truthyEntry scriptOptions.renderer.clientEntrypoint then
        let ep := scriptOptions.renderer.clientEntrypoint.getD ""
        let i1 := setProp island2 "component-export" (.str metadata.componentExportValue)
        let rendererUrlArg := C.decodeURI ep
        let i2 := setProp i1 "renderer-url" (.str (resolve rendererUrlArg))
        let i3 := setProp i2 "props"
          (.str (C.escapeHTML (C.serializeProps scriptOptions.props metadata)))
        ([componentUrlArg, rendererUrlArg], i3)
      else
        ([componentUrlArg], island2)
    let island4 := setProp stage3.2 "ssr" (.str "")
    let island5 := setProp island4 "client" (.str metadata.hydrate)
    let beforeHydrationUrl := resolve "astro:scripts/before-hydration.js"
    let island6 :=
      if 0 < beforeHydrationUrl.length then
        setProp island5 "before-hydration-url" (.str beforeHydrationUrl)
      else island5
    let island7 := setProp island6 "opts"
      (.str (C.escapeHTML (C.stringifyOpts metadata.displayName
        (if metadata.hydrateArgs.truthy then metadata.hydrateArgs else .str ""))))
    let island8 := transitionDirectivesToCopyOnIsland.foldl
      (fun isl name =>
        if ((lookupProp scriptOptions.props (.str name)).getD .undefined).truthy then
          setProp isl name ((lookupProp scriptOptions.props (.str name)).getD .undefined)
        else isl)
      island7
    (stage3.1 ++ ["astro:scripts/before-hydration.js"], .ok { children := "", props := island8 })

/-- True on string keys belonging to the frozen transition list; symbol
keys never belong to it. -/
def isTransitionPKey : PKey → Bool
  | .str s => transitionDirectivesToCopyOnIsland.contains s
  | .sym _ => false

/-- Left portion of a string up to (excluding) its first colon. -/
def firstSegment (s : String) : String :=
  String.mk (s.data.takeWhile (fun c => !(decide (c = ':'))))

section BagLemmas

variable {κ : Type} [DecidableEq κ]

theorem setProp_mem_self (b : List (κ × JSValue)) (k : κ) (v : JSValue) :
    (k, v) ∈ setProp b k v := by
  induction b with
  | nil => simp [setProp]
  | cons e rest ih =>
    by_cases h : e.1 = k <;> simp [setProp, h, ih]

theorem setProp_mem_of_ne {b : List (κ × JSValue)} {x k : κ} {v w : JSValue}
    (hmem : (x, v) ∈ b) (hne : x ≠ k) : (x, v) ∈ setProp b k w := by
  induction b with
  | nil => cases hmem
  | cons e rest ih =>
    by_cases h : e.1 = k
    · simp only [setProp, if_pos h]
      rcases List.mem_cons.mp hmem with h1 | h1
      · exact absurd (by rw [← h1] at h; exact h) hne
      · exact List.mem_cons.mpr (Or.inr h1)
    · simp only [setProp, if_neg h]
      rcases List.mem_cons.mp hmem with h1 | h1
      · exact List.mem_cons.mpr (Or.inl h1)
      · exact List.mem_cons.mpr (Or.inr (ih h1))

theorem lookup_setProp_self (b : List (κ × JSValue)) (k : κ) (v : JSValue) :
    lookupProp (setProp b k v) k = some v := by
  induction b with
  | nil => simp [setProp, lookupProp]
  | cons e rest ih =>
    by_cases h : e.1 = k <;> simp [setProp, lookupProp, h] at ih ⊢
    simpa [lookupProp] using ih

theorem lookup_setProp_ne {x k : κ} (hne : x ≠ k) (b : List (κ × JSValue)) (v : JSValue) :
    lookupProp (setProp b k v) x = lookupProp b x := by
  have hkx : ¬ (k = x) := fun hh => hne hh.symm
  induction b with
  | nil => simp [setProp, lookupProp, hkx]
  | cons e rest ih =>
    by_cases h : e.1 = k
    · have hex : ¬ (e.1 = x) := by rw [h]; exact hkx
      simp only [setProp, if_pos h, lookupProp]
      rw [List.find?_cons_of_neg _ (by simpa using hkx), List.find?_cons_of_neg _ (by simpa using hex)]
    · simp only [setProp, if_neg h, lookupProp]
      by_cases hex : e.1 = x
      · rw [List.find?_cons_of_pos _ (by simpa using hex), List.find?_cons_of_pos _ (by simpa using hex)]
      · rw [List.find?_cons_of_neg _ (by simpa using hex), List.find?_cons_of_neg _ (by simpa using hex)]
        exact ih

theorem isSome_lookup_setProp {b : List (κ × JSValue)} {x : κ}
    (hsome : (lookupProp b x).isSome = true) (k : κ) (v : JSValue) :
    (lookupProp (setProp b k v) x).isSome = true := by
  by_cases h : x = k
  · subst h; simp [lookup_setProp_self]
  · rw [lookup_setProp_ne h]; exact hsome

theorem filter_setProp_pos (p : κ → Bool) {k : κ} (hp : p k = true)
    (b : List (κ × JSValue)) (v : JSValue) :
    (setProp b k v).filter (fun e => p e.1) = setProp (b.filter (fun e => p e.1)) k v := by
  induction b with
  | nil => simp [setProp, hp]
  | cons e rest ih =>
    by_cases h : e.1 = k
    · simp [setProp, h, hp, List.filter_cons, h ▸ hp]
    · by_cases hpe : p e.1 = true
      · simp [setProp, h, List.filter_cons, hpe, ih]
      · simp only [Bool.not_eq_true] at hpe
        simp [setProp, h, List.filter_cons, hpe, ih]

theorem filter_setProp_neg (p : κ → Bool) {k : κ} (hp : p k = false)
    (b : List (κ × JSValue)) (v : JSValue) :
    (setProp b k v).filter (fun e => p e.1) = b.filter (fun e => p e.1) := by
  induction b with
  | nil => simp [setProp, hp]
  | cons e rest ih =>
    by_cases h : e.1 = k
    · simp [setProp, h, List.filter_cons, h ▸ hp, hp]
    · by_cases hpe : p e.1 = true
      · simp [setProp, h, List.filter_cons, hpe, ih]
      · simp only [Bool.not_eq_true] at hpe
        simp [setProp, h, List.filter_cons, hpe, ih]

end BagLemmas

theorem addSyms_filter (p : PKey → Bool) (hp : ∀ n : Nat, p (.sym n) = true)
    (b : List (PKey × JSValue)) (syms : List (Nat × JSValue)) :
    (addSyms b syms).filter (fun e => p e.1) = addSyms (b.filter (fun e => p e.1)) syms := by
  induction syms generalizing b with
  | nil => simp [addSyms]
  | cons e rest ih =>
    simp only [addSyms, List.foldl_cons] at ih ⊢
    rw [ih, filter_setProp_pos p (hp e.1)]

theorem mem_addSyms_of_mem {b : List (PKey × JSValue)} {x : PKey} {v : JSValue}
    (hmem : (x, v) ∈ b) (syms : List (Nat × JSValue))
    (hne : ∀ e ∈ syms, PKey.sym e.1 ≠ x) : (x, v) ∈ addSyms b syms := by
  induction syms generalizing b with
  | nil => simpa [addSyms] using hmem
  | cons e rest ih =>
    simp only [addSyms, List.foldl_cons] at ih ⊢
    exact ih (setProp_mem_of_ne hmem (fun h => hne e (by simp) (h ▸ rfl))) (fun e' he' => hne e' (by simp [he']))

theorem mem_addSyms_self {syms : List (Nat × JSValue)} {s : Nat} {v : JSValue}
    (hnd : (syms.map Prod.fst).Nodup) (hmem : (s, v) ∈ syms) (b : List (PKey × JSValue)) :
    (PKey.sym s, v) ∈ addSyms b syms := by
  induction syms generalizing b with
  | nil => cases hmem
  | cons e rest ih =>
    simp only [addSyms, List.foldl_cons]
    rcases List.mem_cons.mp hmem with h1 | h1
    · have hs : e = (s, v) := h1.symm
      subst hs
      have hnotin : s ∉ rest.map Prod.fst := by
        simpa using (List.nodup_cons.mp hnd).1
      exact mem_addSyms_of_mem (setProp_mem_self b (.sym s) v) rest
        (fun e' he' h => hnotin (by
          have : e'.1 = s := by injection h
          exact this ▸ List.mem_map_of_mem Prod.fst he'))
    · exact ih (List.nodup_cons.mp hnd).2 h1 _

section StringLemmas

theorem splitCharList_ne_nil (sep : Char) (l : List Char) : splitCharList sep l ≠ [] := by
  induction l with
  | nil => simp [splitCharList]
  | cons c cs ih =>
    by_cases h : c = sep
    · simp [splitCharList, h]
    · simp only [splitCharList, if_neg h]
      cases hs : splitCharList sep cs with
      | nil => exact absurd hs ih
      | cons g gs => simp

theorem splitCharList_noSep_append (sep : Char) (pre l : List Char)
    (hpre : ∀ c ∈ pre, ¬ c = sep) :
    splitCharList sep (pre ++ sep :: l) = pre :: splitCharList sep l := by
  induction pre with
  | nil => simp [splitCharList]
  | cons c cs ih =>
    have hc : ¬ c = sep := hpre c (by simp)
    have ihh := ih (fun c' hc' => hpre c' (by simp [hc']))
    simp only [List.cons_append, splitCharList, if_neg hc, List.append_eq, ihh]

theorem splitCharList_head_takeWhile (sep : Char) (l : List Char) :
    ∃ gs, splitCharList sep l = (l.takeWhile (fun c => !(decide (c = sep)))) :: gs := by
  induction l with
  | nil => exact ⟨[], rfl⟩
  | cons c cs ih =>
    by_cases h : c = sep
    · exact ⟨splitCharList sep cs, by simp [splitCharList, h, List.takeWhile_cons]⟩
    · obtain ⟨gs, hgs⟩ := ih
      exact ⟨gs, by simp [splitCharList, h, hgs, List.takeWhile_cons]⟩

theorem data_client_append (s : String) : ("client:" ++ s).data = "client:".data ++ s.data :=
  String.data_append "client:" s

theorem strStartsWith_client_append (s : String) :
    strStartsWith ("client:" ++ s) "client:" = true := by
  simp only [strStartsWith, data_client_append]
  have : "client:".data = ['c', 'l', 'i', 'e', 'n', 't', ':'] := rfl
  simp [this, List.isPrefixOf]

theorem not_strStartsWith_server_client_append (s : String) :
    strStartsWith ("client:" ++ s) "server:" = false := by
  simp only [strStartsWith, data_client_append]
  have h1 : "client:".data = ['c', 'l', 'i', 'e', 'n', 't', ':'] := rfl
  have h2 : "server:".data = ['s', 'e', 'r', 'v', 'e', 'r', ':'] := rfl
  simp [h1, h2, List.isPrefixOf]

theorem server_not_client {k : String} (h : strStartsWith k "server:" = true) :
    strStartsWith k "client:" = false := by
  simp only [strStartsWith] at h ⊢
  cases hd : k.data with
  | nil => rw [hd] at h; exact absurd h (by decide)
  | cons c cs =>
    rw [hd] at h
    have hc : c = 's' := by
      simp only [List.isPrefixOf, Bool.and_eq_true, beq_iff_eq] at h
      exact h.1.symm
    subst hc
    simp [List.isPrefixOf]

theorem client_append_inj {a b : String} (h : "client:" ++ a = "client:" ++ b) : a = b := by
  have hd := congrArg String.data h
  rw [String.data_append, String.data_append] at hd
  exact String.ext (List.append_cancel_left hd)

theorem splitSecond_client_append (s : String) :
    splitSecond ("client:" ++ s) = firstSegment s := by
  have hpre : ∀ c ∈ ['c', 'l', 'i', 'e', 'n', 't'], ¬ c = ':' := by decide
  have hdata : ("client:" ++ s).data = ['c', 'l', 'i', 'e', 'n', 't'] ++ ':' :: s.data := by
    rw [data_client_append]; rfl
  obtain ⟨gs, hgs⟩ := splitCharList_head_takeWhile ':' s.data
  simp only [splitSecond, jsSplit, hdata, splitCharList_noSep_append ':' _ _ hpre, hgs,
    List.map_cons, List.getD_cons_succ, List.getD_cons_zero, firstSegment]

end StringLemmas

/-- The five `client:` suffixes with dedicated switch cases; every other
suffix reaches the canonical-directive handling. -/
def reservedSuffixes : List String :=
  ["component-path", "component-export", "component-hydration", "display-name", "params"]

/-- State with the hydration record forced into existence, as the lazy
creation preceding the switch leaves it. -/
def ensureHyd (st : ExtractedProps) : ExtractedProps :=
  { st with hydration := some (st.hydration.getD initHydration) }

section StepLemmas

theorem defaultCase_ok_shape {st : ExtractedProps} {h : HydrationMetadata} {key : String}
    {v : JSValue} {reg : List String} {st' : ExtractedProps}
    (hok : defaultCase st h key v reg = .ok st') :
    st' = { st with hydration := some { h with directive := splitSecond key, value := v } } ∧
      reg.contains (splitSecond key) = true := by
  simp only [defaultCase] at hok
  split at hok
  · cases hok
  · split at hok
    · cases hok
    · rename_i hcon _
      simp only [Bool.not_eq_true', Bool.not_eq_false] at hcon
      cases hok
      exact ⟨rfl, hcon⟩

theorem paramsCase_ok_shape {st : ExtractedProps} {h : HydrationMetadata}
    {v : JSValue} {reg : List String} {st' : ExtractedProps}
    (hok : paramsCase st h v reg = .ok st') :
    st' = st ∨ ∃ key' v',
      st' = { st with hydration := some { h with directive := splitSecond key', value := v' } } ∧
        reg.contains (splitSecond key') = true := by
  cases v with
  | obj entries =>
    simp only [paramsCase, isNullish, Bool.false_eq_true, if_false] at hok
    split at hok
    · cases hok
    · generalize hgf : getField entries "directive" = gf at hok
      cases gf with
      | str dir =>
        exact Or.inr ⟨"client:" ++ dir, getField entries "value", defaultCase_ok_shape hok⟩
      | undefined => cases hok
      | null => cases hok
      | bool b => cases hok
      | num n => cases hok
      | obj o => cases hok
  | undefined =>
    simp only [paramsCase, isNullish, if_true] at hok
    cases hok; exact Or.inl rfl
  | null =>
    simp only [paramsCase, isNullish, if_true] at hok
    cases hok; exact Or.inl rfl
  | bool b =>
    simp only [paramsCase, isNullish, Bool.false_eq_true, if_false] at hok
    cases hok
  | num n =>
    simp only [paramsCase, isNullish, Bool.false_eq_true, if_false] at hok
    cases hok
  | str s =>
    simp only [paramsCase, isNullish, Bool.false_eq_true, if_false] at hok
    cases hok

theorem clientStep_bags {st : ExtractedProps} {k : String} {v : JSValue} {reg : List String}
    {st' : ExtractedProps} (hok : clientStep st k v reg = .ok st') :
    st'.props = st.props ∧
      st'.propsWithoutTransitionAttributes = st.propsWithoutTransitionAttributes ∧
      st'.isPage = st.isPage := by
  simp only [clientStep] at hok
  split_ifs at hok
  · cases hok; exact ⟨rfl, rfl, rfl⟩
  · cases hok; exact ⟨rfl, rfl, rfl⟩
  · cases hok; exact ⟨rfl, rfl, rfl⟩
  · cases hok; exact ⟨rfl, rfl, rfl⟩
  · rcases paramsCase_ok_shape hok with h1 | ⟨key', v', h1, _⟩ <;> subst h1 <;> exact ⟨rfl, rfl, rfl⟩
  · rcases defaultCase_ok_shape hok with ⟨h1, _⟩
    subst h1; exact ⟨rfl, rfl, rfl⟩

/-- Hydration invariant used for the directive-name membership claim. -/
def hydInv (reg : List String) (st : ExtractedProps) : Prop :=
  ∀ h, st.hydration = some h → h.directive = "" ∨ reg.contains h.directive = true

theorem clientStep_hydInv {st : ExtractedProps} {k : String} {v : JSValue} {reg : List String}
    {st' : ExtractedProps} (hinv : hydInv reg st) (hok : clientStep st k v reg = .ok st') :
    hydInv reg st' := by
  have hbase : (st.hydration.getD initHydration).directive = "" ∨
      reg.contains (st.hydration.getD initHydration).directive = true := by
    cases hh : st.hydration with
    | none => simp [initHydration]
    | some h0 => simpa using hinv h0 hh
  simp only [clientStep] at hok
  split_ifs at hok
  · cases hok; intro h hm; cases hm; exact hbase
  · cases hok; intro h hm; cases hm; exact hbase
  · cases hok; intro h hm; cases hm; exact hbase
  · cases hok; intro h hm; cases hm; exact hbase
  · rcases paramsCase_ok_shape hok with h1 | ⟨key', v', h1, hcon⟩
    · subst h1; intro h hm; cases hm; exact hbase
    · subst h1; intro h hm; cases hm; exact Or.inr hcon
  · rcases defaultCase_ok_shape hok with ⟨h1, hcon⟩
    subst h1; intro h hm; cases hm; exact Or.inr hcon

theorem serverMark_hydration (st : ExtractedProps) (k : String) :
    (serverMark st k).hydration = st.hydration := by
  unfold serverMark; split_ifs <;> rfl

theorem serverMark_props (st : ExtractedProps) (k : String) :
    (serverMark st k).props = st.props := by
  unfold serverMark; split_ifs <;> rfl

theorem serverMark_propsWithout (st : ExtractedProps) (k : String) :
    (serverMark st k).propsWithoutTransitionAttributes = st.propsWithoutTransitionAttributes := by
  unfold serverMark; split_ifs <;> rfl

theorem stringStep_hydInv {st : ExtractedProps} {k : String} {v : JSValue} {reg : List String}
    {st' : ExtractedProps} (hinv : hydInv reg st) (hok : stringStep st k v reg = .ok st') :
    hydInv reg st' := by
  have hinv1 : hydInv reg (serverMark st k) := by
    intro h hm
    exact hinv h ((serverMark_hydration st k) ▸ hm)
  simp only [stringStep] at hok
  split at hok
  · exact clientStep_hydInv hinv1 hok
  · cases hok
    intro h hm
    exact hinv1 h hm

theorem stringStep_bags {st : ExtractedProps} {k : String} {v : JSValue} {reg : List String}
    {st' : ExtractedProps} (hok : stringStep st k v reg = .ok st') :
    (st'.props = st.props ∧
        st'.propsWithoutTransitionAttributes = st.propsWithoutTransitionAttributes) ∨
      (st'.props = setProp st.props (.str k) v ∧
        st'.propsWithoutTransitionAttributes =
          (if transitionDirectivesToCopyOnIsland.contains k then
            st.propsWithoutTransitionAttributes
          else setProp st.propsWithoutTransitionAttributes (.str k) v)) := by
  simp only [stringStep] at hok
  split at hok
  · rcases clientStep_bags hok with ⟨h1, h2, _⟩
    exact Or.inl ⟨h1.trans (serverMark_props st k), h2.trans (serverMark_propsWithout st k)⟩
  · cases hok
    refine Or.inr ⟨by rw [serverMark_props], ?_⟩
    by_cases ht : transitionDirectivesToCopyOnIsland.contains k = true
    · simp [ht, serverMark_propsWithout]
    · simp only [Bool.not_eq_true] at ht
      simp [ht, serverMark_propsWithout]

end StepLemmas

section LoopLemmas

theorem extractLoop_cons_ok {st st' : ExtractedProps} {k : String} {v : JSValue}
    {reg : List String} (h : stringStep st k v reg = .ok st') (rest : List (String × JSValue)) :
    extractLoop reg st ((k, v) :: rest) = extractLoop reg st' rest := by
  simp [extractLoop, h]

theorem extractLoop_cons_error {st : ExtractedProps} {k : String} {v : JSValue}
    {reg : List String} {e : ExtractError} (h : stringStep st k v reg = .error e)
    (rest : List (String × JSValue)) :
    extractLoop reg st ((k, v) :: rest) = .error e := by
  simp [extractLoop, h]

theorem extractLoop_hydInv {reg : List String} {l : List (String × JSValue)}
    {st ex : ExtractedProps} (hinv : hydInv reg st) (hok : extractLoop reg st l = .ok ex) :
    hydInv reg ex := by
  induction l generalizing st with
  | nil => cases hok; exact hinv
  | cons p rest ih =>
    obtain ⟨k, v⟩ := p
    simp only [extractLoop] at hok
    split at hok
    · exact ih (stringStep_hydInv hinv (by assumption)) hok
    · cases hok

/-- Complement of the transition-key test, the predicate the second bag
filters by. -/
def notTransition (x : PKey) : Bool := !(isTransitionPKey x)

theorem extractLoop_filterInv {reg : List String} {l : List (String × JSValue)}
    {st ex : ExtractedProps}
    (hq : st.propsWithoutTransitionAttributes = st.props.filter (fun e => notTransition e.1))
    (hok : extractLoop reg st l = .ok ex) :
    ex.propsWithoutTransitionAttributes = ex.props.filter (fun e => notTransition e.1) := by
  induction l generalizing st with
  | nil => cases hok; exact hq
  | cons p rest ih =>
    obtain ⟨k, v⟩ := p
    simp only [extractLoop] at hok
    split at hok
    · rename_i st' hstep
      rcases stringStep_bags hstep with ⟨h1, h2⟩ | ⟨h1, h2⟩
      · exact ih (by rw [h1, h2]; exact hq) hok
      · refine ih ?_ hok
        rw [h1, h2]
        by_cases ht : transitionDirectivesToCopyOnIsland.contains k = true
        · have hp : notTransition (PKey.str k) = false := by
            simp only [notTransition, isTransitionPKey, ht, Bool.not_true]
          rw [if_pos ht, filter_setProp_neg _ hp, hq]
        · simp only [Bool.not_eq_true] at ht
          have hp : notTransition (PKey.str k) = true := by
            simp only [notTransition, isTransitionPKey, ht, Bool.not_false]
          rw [if_neg (by intro hh; rw [ht] at hh; exact Bool.false_ne_true hh), filter_setProp_pos _ hp, hq]
    · cases hok

theorem extractLoop_mem_preserve {reg : List String} {l : List (String × JSValue)}
    {st ex : ExtractedProps} {x : PKey} {w : JSValue}
    (hp : (x, w) ∈ st.props) (hpw : (x, w) ∈ st.propsWithoutTransitionAttributes)
    (hall : ∀ p ∈ l, PKey.str p.1 ≠ x) (hok : extractLoop reg st l = .ok ex) :
    (x, w) ∈ ex.props ∧ (x, w) ∈ ex.propsWithoutTransitionAttributes := by
  induction l generalizing st with
  | nil => cases hok; exact ⟨hp, hpw⟩
  | cons p rest ih =>
    obtain ⟨k, v⟩ := p
    have hkx : PKey.str k ≠ x := hall (k, v) (by simp)
    simp only [extractLoop] at hok
    split at hok
    · rename_i st' hstep
      have hxk : x ≠ PKey.str k := fun hh => hkx hh.symm
      rcases stringStep_bags hstep with ⟨h1, h2⟩ | ⟨h1, h2⟩
      · exact ih (h1 ▸ hp) (h2 ▸ hpw) (fun p hP => hall p (by simp [hP])) hok
      · refine ih (h1 ▸ setProp_mem_of_ne hp hxk) ?_ (fun p hP => hall p (by simp [hP])) hok
        rw [h2]
        by_cases ht : transitionDirectivesToCopyOnIsland.contains k = true
        · rw [if_pos ht]; exact hpw
        · simp only [Bool.not_eq_true] at ht
          rw [if_neg (by intro hh; rw [ht] at hh; exact Bool.false_ne_true hh)]
          exact setProp_mem_of_ne hpw hxk
    · cases hok

theorem extractDirectives_ok_elim {input : InputProps} {reg : List String} {ex : ExtractedProps}
    (hok : extractDirectives input reg = .ok ex) :
    ∃ ex0, extractLoop reg initExtracted input.strEntries = .ok ex0 ∧
      ex = { ex0 with
        props := addSyms ex0.props input.symEntries,
        propsWithoutTransitionAttributes :=
          addSyms ex0.propsWithoutTransitionAttributes input.symEntries } := by
  unfold extractDirectives at hok
  split at hok
  · cases hok
  · rename_i ex0 h0
    cases hok
    exact ⟨ex0, h0, rfl⟩

/-- Plain-keys loop lemma: entries whose keys are neither `client:` nor
`server:` nor transition keys are copied identically into both bags and
touch neither `isPage` nor the hydration record. -/
theorem extractLoop_plain {reg : List String} {l : List (String × JSValue)}
    {st : ExtractedProps}
    (hkeys : ∀ p ∈ l, strStartsWith p.1 "client:" = false ∧
      strStartsWith p.1 "server:" = false ∧
      transitionDirectivesToCopyOnIsland.contains p.1 = false)
    (hbags : st.props = st.propsWithoutTransitionAttributes) :
    ∃ ex0, extractLoop reg st l = .ok ex0 ∧ ex0.isPage = st.isPage ∧
      ex0.hydration = st.hydration ∧ ex0.props = ex0.propsWithoutTransitionAttributes := by
  induction l generalizing st with
  | nil => exact ⟨st, rfl, rfl, rfl, hbags⟩
  | cons p rest ih =>
    obtain ⟨k, v⟩ := p
    obtain ⟨hc, hs, htr⟩ := hkeys (k, v) (by simp)
    have hstep : stringStep st k v reg =
        .ok { st with
              props := setProp st.props (.str k) v,
              propsWithoutTransitionAttributes :=
                setProp st.propsWithoutTransitionAttributes (.str k) v } := by
      simp only [stringStep, serverMark, hc, hs, htr, Bool.false_eq_true, if_false]
    rw [extractLoop_cons_ok hstep]
    obtain ⟨ex0, hex, h1, h2, h3⟩ :=
      @ih { st with
            props := setProp st.props (.str k) v,
            propsWithoutTransitionAttributes :=
              setProp st.propsWithoutTransitionAttributes (.str k) v }
        (fun p hp => hkeys p (by simp [hp])) (by rw [hbags])
    exact ⟨ex0, hex, h1, h2, h3⟩

end LoopLemmas

section DispatchLemmas

theorem defaultCase_unknown {st : ExtractedProps} {h : HydrationMetadata} {key : String}
    {v : JSValue} {reg : List String} (hcon : reg.contains (splitSecond key) = false) :
    defaultCase st h key v reg =
      .error (.unknownDirective ("Error: invalid hydration directive \"" ++ key ++
        "\". Supported hydration methods: " ++ formatHydrationMethods reg)) := by
  simp only [defaultCase, hcon, Bool.not_false, if_true]

theorem defaultCase_accepts {st : ExtractedProps} {h : HydrationMetadata} {key : String}
    {v : JSValue} {reg : List String} (hreg : reg.contains (splitSecond key) = true)
    (hmedia : splitSecond key = "media" → v.isString = true) :
    defaultCase st h key v reg =
      .ok { st with hydration := some { h with directive := splitSecond key, value := v } } := by
  have hcond : (decide (splitSecond key = "media") && !(v.isString)) = false := by
    by_cases hm : splitSecond key = "media"
    · simp [hm, hmedia hm]
    · simp [hm]
  simp only [defaultCase, hreg, Bool.not_true, Bool.false_eq_true, if_false, hcond]

theorem defaultCase_media_err {st : ExtractedProps} {h : HydrationMetadata} {key : String}
    {v : JSValue} {reg : List String} (hk : splitSecond key = "media")
    (hreg : reg.contains (splitSecond key) = true) (hv : v.isString = false) :
    defaultCase st h key v reg = .error .missingMediaQuery := by
  have hreg' : reg.contains "media" = true := hk ▸ hreg
  simp only [defaultCase, hk, hreg', Bool.not_true, Bool.false_eq_true, if_false, hv,
    Bool.not_false, Bool.and_true, decide_True, if_true]

theorem clientStep_canonical {st : ExtractedProps} {suffix : String}
    (hres : reservedSuffixes.contains suffix = false) (v : JSValue) (reg : List String) :
    clientStep st ("client:" ++ suffix) v reg =
      defaultCase (ensureHyd st) (st.hydration.getD initHydration) ("client:" ++ suffix) v reg := by
  have h5 : suffix ≠ "component-path" ∧ suffix ≠ "component-export" ∧
      suffix ≠ "component-hydration" ∧ suffix ≠ "display-name" ∧ suffix ≠ "params" := by
    simpa [reservedSuffixes] using hres
  have hs : ∀ s : String, suffix ≠ s → ¬("client:" ++ suffix = "client:" ++ s) :=
    fun s hne hcon => hne (client_append_inj hcon)
  simp only [clientStep, ensureHyd]
  rw [if_neg (fun hcon => hs _ h5.1 (hcon.trans rfl)),
    if_neg (fun hcon => hs _ h5.2.1 (hcon.trans rfl)),
    if_neg (fun hcon => hs _ h5.2.2.1 (hcon.trans rfl)),
    if_neg (fun hcon => hs _ h5.2.2.2.1 (hcon.trans rfl)),
    if_neg (fun hcon => hs _ h5.2.2.2.2 (hcon.trans rfl))]

theorem stringStep_canonical {st : ExtractedProps} {suffix : String}
    (hres : reservedSuffixes.contains suffix = false) (v : JSValue) (reg : List String) :
    stringStep st ("client:" ++ suffix) v reg =
      defaultCase (ensureHyd st) (st.hydration.getD initHydration) ("client:" ++ suffix) v reg := by
  simp only [stringStep, serverMark, not_strStartsWith_server_client_append,
    Bool.false_eq_true, if_false, strStartsWith_client_append, if_true]
  exact clientStep_canonical hres v reg

theorem stringStep_params (st : ExtractedProps) (v : JSValue) (reg : List String) :
    stringStep st "client:params" v reg =
      paramsCase (ensureHyd st) (st.hydration.getD initHydration) v reg := rfl

theorem paramsCase_valid {st : ExtractedProps} {h : HydrationMetadata}
    {entries : List (String × JSValue)} {dir : String} {reg : List String}
    (hany : (entries.any (fun e => !(e.1 == "directive") && !(e.1 == "value"))) = false)
    (hdir : getField entries "directive" = .str dir) :
    paramsCase st h (.obj entries) reg =
      defaultCase st h ("client:" ++ dir) (getField entries "value") reg := by
  simp only [paramsCase, isNullish, Bool.false_eq_true, if_false, hany, hdir]

end DispatchLemmas

section IslandLemmas

theorem lookup_foldl_attrs (esc : String → String) {key : String}
    (attrs : List (String × String)) (b : List (String × JSValue))
    (hkeys : ∀ kv ∈ attrs, kv.1 ≠ key) :
    lookupProp (attrs.foldl (fun isl kv => setProp isl kv.1 (.str (esc kv.2))) b) key =
      lookupProp b key := by
  induction attrs generalizing b with
  | nil => rfl
  | cons kv rest ih =>
    simp only [List.foldl_cons]
    rw [ih _ (fun kv' h => hkeys kv' (by simp [h]))]
    exact lookup_setProp_ne (fun hh => hkeys kv (by simp) hh.symm) b (.str (esc kv.2))

theorem isSome_foldl_attrs (esc : String → String) {key : String}
    (attrs : List (String × String)) {b : List (String × JSValue)}
    (hsome : (lookupProp b key).isSome = true) :
    (lookupProp (attrs.foldl (fun isl kv => setProp isl kv.1 (.str (esc kv.2))) b)
      key).isSome = true := by
  induction attrs generalizing b with
  | nil => exact hsome
  | cons kv rest ih =>
    simp only [List.foldl_cons]
    exact ih (isSome_lookup_setProp hsome kv.1 (.str (esc kv.2)))

theorem lookup_foldl_trans (props : List (PKey × JSValue)) {key : String}
    (names : List String) (b : List (String × JSValue))
    (hkeys : ∀ n ∈ names, n ≠ key) :
    lookupProp (names.foldl (fun isl name =>
      if ((lookupProp props (.str name)).getD .undefined).truthy then
        setProp isl name ((lookupProp props (.str name)).getD .undefined)
      else isl) b) key = lookupProp b key := by
  induction names generalizing b with
  | nil => rfl
  | cons n rest ih =>
    simp only [List.foldl_cons]
    rw [ih _ (fun n' h => hkeys n' (by simp [h]))]
    by_cases ht : ((lookupProp props (.str n)).getD .undefined).truthy = true
    · rw [if_pos ht]
      exact lookup_setProp_ne (fun hh => hkeys n (by simp) hh.symm) b _
    · rw [if_neg ht]

theorem isSome_foldl_trans (props : List (PKey × JSValue)) {key : String}
    (names : List String) {b : List (String × JSValue)}
    (hsome : (lookupProp b key).isSome = true) :
    (lookupProp (names.foldl (fun isl name =>
      if ((lookupProp props (.str name)).getD .undefined).truthy then
        setProp isl name ((lookupProp props (.str name)).getD .undefined)
      else isl) b) key).isSome = true := by
  induction names generalizing b with
  | nil => exact hsome
  | cons n rest ih =>
    simp only [List.foldl_cons]
    refine ih ?_
    by_cases ht : ((lookupProp props (.str n)).getD .undefined).truthy = true
    · rw [if_pos ht]
      exact isSome_lookup_setProp hsome n _
    · rw [if_neg ht]
      exact hsome

end IslandLemmas

theorem extractLoop_server_mem {reg : List String} {l : List (String × JSValue)}
    {st ex : ExtractedProps} {k : String} {v : JSValue}
    (hnd : (l.map Prod.fst).Nodup) (hok : extractLoop reg st l = .ok ex)
    (hmem : (k, v) ∈ l) (hserver : strStartsWith k "server:" = true) :
    (PKey.str k, v) ∈ ex.props ∧ (PKey.str k, v) ∈ ex.propsWithoutTransitionAttributes := by
  induction l generalizing st with
  | nil => cases hmem
  | cons p rest ih =>
    obtain ⟨k', v'⟩ := p
    rcases List.mem_cons.mp hmem with heq | htail
    · obtain ⟨hk, hv⟩ := Prod.mk.inj heq
      subst hk; subst hv
      have hcl : strStartsWith k "client:" = false := server_not_client hserver
      have htr : transitionDirectivesToCopyOnIsland.contains k = false := by
        by_contra hcon
        simp only [Bool.not_eq_false] at hcon
        have hk2 : k = "data-astro-transition-scope" ∨ k = "data-astro-transition-persist" := by
          simpa [transitionDirectivesToCopyOnIsland] using hcon
        rcases hk2 with rfl | rfl <;> exact absurd hserver (by decide)
      have hstep : stringStep st k v reg =
          .ok { (serverMark st k) with
                props := setProp (serverMark st k).props (.str k) v,
                propsWithoutTransitionAttributes :=
                  setProp (serverMark st k).propsWithoutTransitionAttributes (.str k) v } := by
        simp only [stringStep, hcl, Bool.false_eq_true, if_false, htr]
      rw [extractLoop_cons_ok hstep] at hok
      have hall : ∀ p ∈ rest, PKey.str p.1 ≠ PKey.str k := by
        intro p hp hcon
        have hpk : p.1 = k := by injection hcon
        have hnd' : (k :: rest.map Prod.fst).Nodup := by
          rw [List.map_cons] at hnd; exact hnd
        exact (List.nodup_cons.mp hnd').1 (hpk ▸ List.mem_map_of_mem Prod.fst hp)
      exact extractLoop_mem_preserve (setProp_mem_self _ _ _) (setProp_mem_self _ _ _) hall hok
    · cases hst : stringStep st k' v' reg with
      | error e => rw [extractLoop_cons_error hst] at hok; cases hok
      | ok st' =>
        rw [extractLoop_cons_ok hst] at hok
        have hnd' : (k' :: rest.map Prod.fst).Nodup := by
          rw [List.map_cons] at hnd; exact hnd
        exact ih (List.nodup_cons.mp hnd').2 hok htail

/-- Claim C1, counterexample: the bag with the single string key
`data-astro-transition-scope` contains no `client:`/`server:` key, yet
`props` and `propsWithoutTransitionAttributes` differ (the transition key
is filtered from the latter), refuting the claimed equality for bags
containing transition keys. -/
theorem C1_counterexample :
    extractDirectives ⟨[("data-astro-transition-scope", JSValue.str "x")], []⟩ ["load"] =
      .ok ⟨false, none, [(PKey.str "data-astro-transition-scope", JSValue.str "x")], []⟩ ∧
    strStartsWith "data-astro-transition-scope" "client:" = false ∧
    strStartsWith "data-astro-transition-scope" "server:" = false ∧
    [(PKey.str "data-astro-transition-scope", JSValue.str "x")] ≠ ([] : List (PKey × JSValue)) := by
  refine ⟨rfl, rfl, rfl, ?_⟩
  intro hcon
  simpa using congrArg List.length hcon

/-- Claim C1 (amended): for every input bag whose string keys include
none starting with `client:` or `server:` and none belonging to the
frozen transition list, `extractDirectives` succeeds and returns
`hydration = none`, `isPage = false`, and equal `props` and
`propsWithoutTransitionAttributes`. -/
theorem C1_plain_bag (input : InputProps) (reg : List String)
    (hkeys : ∀ p ∈ input.strEntries, strStartsWith p.1 "client:" = false ∧
      strStartsWith p.1 "server:" = false ∧
      transitionDirectivesToCopyOnIsland.contains p.1 = false) :
    ∃ ex, extractDirectives input reg = .ok ex ∧ ex.isPage = false ∧ ex.hydration = none ∧
      ex.props = ex.propsWithoutTransitionAttributes := by
  obtain ⟨ex0, hex, h1, h2, h3⟩ :=
    @extractLoop_plain reg input.strEntries initExtracted hkeys rfl
  refine ⟨{ ex0 with
      props := addSyms ex0.props input.symEntries,
      propsWithoutTransitionAttributes :=
        addSyms ex0.propsWithoutTransitionAttributes input.symEntries },
    ?_, h1.trans rfl, h2.trans rfl, ?_⟩
  · unfold extractDirectives
    rw [hex]
  · show addSyms ex0.props input.symEntries =
      addSyms ex0.propsWithoutTransitionAttributes input.symEntries
    rw [h3]

/-- Witness for the amended claim C1 at a concrete one-key bag. -/
theorem C1_plain_bag_witness :
    ∃ ex, extractDirectives ⟨[("title", JSValue.str "hi")], []⟩ ["load"] = .ok ex ∧
      ex.isPage = false ∧ ex.hydration = none ∧
      ex.props = ex.propsWithoutTransitionAttributes :=
  C1_plain_bag ⟨[("title", JSValue.str "hi")], []⟩ ["load"] (by decide)

/-- Claim C3, counterexample: the bag whose only (client) key is
`client:display-name` extracts successfully with a hydration record
present whose directive name is the empty string, which is not in the
registry; `display-name` is neither `component-path` nor
`component-export`, so the claimed exception does not cover this run. -/
theorem C3_counterexample :
    extractDirectives ⟨[("client:display-name", JSValue.str "Foo")], []⟩ ["load"] =
      .ok ⟨false, some initHydration, [], []⟩ ∧
    initHydration.directive = "" ∧
    (["load"] : List String).contains "" = false :=
  ⟨rfl, rfl, rfl⟩

/-- Claim C3 (amended): whenever extraction succeeds with a hydration
record present, the record's directive name is a member of the registry
or is the empty string (the latter whenever only the non-name-setting
`client:` keys — `component-path`, `component-export`,
`component-hydration`, `display-name`, or a nullish `client:params` —
were seen). -/
theorem C3_directive_name (input : InputProps) (reg : List String) (ex : ExtractedProps)
    (h : HydrationMetadata) (hok : extractDirectives input reg = .ok ex)
    (hh : ex.hydration = some h) :
    h.directive = "" ∨ reg.contains h.directive = true := by
  obtain ⟨ex0, h0, hex⟩ := extractDirectives_ok_elim hok
  have hinv : hydInv reg ex0 :=
    extractLoop_hydInv (fun h' hm => by simp [initExtracted] at hm) h0
  subst hex
  exact hinv h hh

/-- Witness for the amended claim C3 at a concrete registered directive. -/
theorem C3_directive_name_witness :
    ("load" : String) = "" ∨ (["load"] : List String).contains "load" = true :=
  C3_directive_name ⟨[("client:load", JSValue.str "")], []⟩ ["load"]
    ⟨false, some ⟨"load", JSValue.str "", JSValue.str "", JSValue.str ""⟩, [], []⟩
    ⟨"load", JSValue.str "", JSValue.str "", JSValue.str ""⟩ rfl rfl

/-- Claim C5: on every successful extraction the second bag is exactly
the first bag with the transition-keyed entries filtered out, and (for
symbol lists without duplicate symbols, as JavaScript guarantees) every
symbol-keyed entry of the input is present unmodified in both bags. -/
theorem C5_bags_relation (input : InputProps) (reg : List String) (ex : ExtractedProps)
    (hok : extractDirectives input reg = .ok ex) :
    ex.propsWithoutTransitionAttributes = ex.props.filter (fun e => notTransition e.1) ∧
    ((input.symEntries.map Prod.fst).Nodup →
      ∀ p ∈ input.symEntries,
        (PKey.sym p.1, p.2) ∈ ex.props ∧
        (PKey.sym p.1, p.2) ∈ ex.propsWithoutTransitionAttributes) := by
  obtain ⟨ex0, h0, hex⟩ := extractDirectives_ok_elim hok
  subst hex
  have hq : ex0.propsWithoutTransitionAttributes =
      ex0.props.filter (fun e => notTransition e.1) :=
    extractLoop_filterInv (by simp [initExtracted]) h0
  constructor
  · show addSyms ex0.propsWithoutTransitionAttributes input.symEntries =
      (addSyms ex0.props input.symEntries).filter (fun e => notTransition e.1)
    rw [addSyms_filter notTransition (fun n => rfl), hq]
  · intro hnd p hp
    obtain ⟨s, w⟩ := p
    exact ⟨mem_addSyms_self hnd hp _, mem_addSyms_self hnd hp _⟩

/-- Witness for claim C5: a bag with one transition key, one ordinary key
and one symbol key. -/
theorem C5_bags_relation_witness :
    (⟨false, none,
      [(PKey.str "data-astro-transition-scope", JSValue.str "x"),
        (PKey.str "other", JSValue.num 1), (PKey.sym 5, JSValue.bool true)],
      [(PKey.str "other", JSValue.num 1), (PKey.sym 5, JSValue.bool true)]⟩ :
        ExtractedProps).propsWithoutTransitionAttributes =
      (⟨false, none,
        [(PKey.str "data-astro-transition-scope", JSValue.str "x"),
          (PKey.str "other", JSValue.num 1), (PKey.sym 5, JSValue.bool true)],
        [(PKey.str "other", JSValue.num 1), (PKey.sym 5, JSValue.bool true)]⟩ :
          ExtractedProps).props.filter (fun e => notTransition e.1) ∧
    ((PKey.sym 5, JSValue.bool true) ∈
      (⟨false, none,
        [(PKey.str "data-astro-transition-scope", JSValue.str "x"),
          (PKey.str "other", JSValue.num 1), (PKey.sym 5, JSValue.bool true)],
        [(PKey.str "other", JSValue.num 1), (PKey.sym 5, JSValue.bool true)]⟩ :
          ExtractedProps).props) := by
  have h := C5_bags_relation
    ⟨[("data-astro-transition-scope", JSValue.str "x"), ("other", JSValue.num 1)],
      [(5, JSValue.bool true)]⟩ [] _ rfl
  exact ⟨h.1, (h.2 (by decide) (5, JSValue.bool true) (by simp)).1⟩

/-- Claim C10: on every successful extraction of a bag without duplicate
string keys, every `server:`-prefixed string key (`server:root`
included) is copied with its value into both output bags. -/
theorem C10_server_keys_pass_through (input : InputProps) (reg : List String)
    (ex : ExtractedProps) (k : String) (v : JSValue)
    (hnd : (input.strEntries.map Prod.fst).Nodup)
    (hok : extractDirectives input reg = .ok ex)
    (hmem : (k, v) ∈ input.strEntries)
    (hserver : strStartsWith k "server:" = true) :
    (PKey.str k, v) ∈ ex.props ∧ (PKey.str k, v) ∈ ex.propsWithoutTransitionAttributes := by
  obtain ⟨ex0, h0, hex⟩ := extractDirectives_ok_elim hok
  subst hex
  obtain ⟨hm1, hm2⟩ := extractLoop_server_mem hnd h0 hmem hserver
  constructor
  · show (PKey.str k, v) ∈ addSyms ex0.props input.symEntries
    exact mem_addSyms_of_mem hm1 _ (fun e he hcon => PKey.noConfusion hcon)
  · show (PKey.str k, v) ∈ addSyms ex0.propsWithoutTransitionAttributes input.symEntries
    exact mem_addSyms_of_mem hm2 _ (fun e he hcon => PKey.noConfusion hcon)

/-- Witness for claim C10 at the bag containing exactly `server:root`. -/
theorem C10_server_keys_pass_through_witness :
    (PKey.str "server:root", JSValue.bool true) ∈
      (⟨true, none, [(PKey.str "server:root", JSValue.bool true)],
        [(PKey.str "server:root", JSValue.bool true)]⟩ : ExtractedProps).props ∧
    (PKey.str "server:root", JSValue.bool true) ∈
      (⟨true, none, [(PKey.str "server:root", JSValue.bool true)],
        [(PKey.str "server:root", JSValue.bool true)]⟩ :
          ExtractedProps).propsWithoutTransitionAttributes :=
  C10_server_keys_pass_through ⟨[("server:root", JSValue.bool true)], []⟩ []
    ⟨true, none, [(PKey.str "server:root", JSValue.bool true)],
      [(PKey.str "server:root", JSValue.bool true)]⟩
    "server:root" (JSValue.bool true) (by decide) rfl (by simp) (by decide)

/-- Claim C4, counterexample: for the key `client:a:b` (suffix `a:b`)
the code's `key.split(':')[1]` takes only the first colon-separated
segment, so with `a` registered the extraction succeeds with directive
name `a`, not the full suffix `a:b` the claim requires. -/
theorem C4_counterexample :
    extractDirectives ⟨[("client:a:b", JSValue.str "v")], []⟩ ["a"] =
      .ok ⟨false, some ⟨"a", JSValue.str "v", JSValue.str "", JSValue.str ""⟩, [], []⟩ ∧
    ("a" : String) ≠ "a:b" :=
  ⟨rfl, by decide⟩

/-- Claim C4 (amended): a `client:`-prefixed key whose suffix is none of
the five reserved suffixes and which passes the registry and media
checks sets the hydration record's directive name to the portion of the
suffix before its first colon (the whole suffix only when it contains no
colon) and the argument to the key's value. -/
theorem C4_canonical_directive (st : ExtractedProps) (reg : List String) (suffix : String)
    (v : JSValue) (rest : List (String × JSValue))
    (hres : reservedSuffixes.contains suffix = false)
    (hreg : reg.contains (firstSegment suffix) = true)
    (hmedia : firstSegment suffix = "media" → v.isString = true) :
    extractLoop reg st (("client:" ++ suffix, v) :: rest) =
      extractLoop reg
        { st with hydration := some { (st.hydration.getD initHydration) with
            directive := firstSegment suffix, value := v } } rest := by
  have hsplit := splitSecond_client_append suffix
  have hok : stringStep st ("client:" ++ suffix) v reg = .ok
      { st with hydration := some { (st.hydration.getD initHydration) with
          directive := firstSegment suffix, value := v } } := by
    rw [stringStep_canonical hres v reg,
      defaultCase_accepts (by rw [hsplit]; exact hreg) (fun hm => hmedia (hsplit ▸ hm))]
    rw [hsplit]
    rfl
  exact extractLoop_cons_ok hok rest

/-- Witness for the amended claim C4 at the key `client:a:b`. -/
theorem C4_canonical_directive_witness :
    extractLoop ["a"] initExtracted [("client:" ++ "a:b", JSValue.str "v")] =
      extractLoop ["a"]
        { initExtracted with hydration := some { initHydration with
            directive := firstSegment "a:b", value := JSValue.str "v" } }
        [] :=
  C4_canonical_directive initExtracted ["a"] "a:b" (JSValue.str "v") []
    (by decide) (by decide) (by decide)

/-- Claim C6: a canonical `client:` key (dispatched directly or through
the `client:params` rewrite) whose computed directive name is not
registered makes extraction fail at that key with the unknown-directive
error, regardless of the keys that follow; the message lists every
registered name formatted as `client:<name>` joined by a comma. -/
theorem C6_unknown_directive (reg : List String) (st : ExtractedProps)
    (rest : List (String × JSValue)) :
    (∀ (suffix : String) (v : JSValue),
      reservedSuffixes.contains suffix = false →
      reg.contains (firstSegment suffix) = false →
      extractLoop reg st (("client:" ++ suffix, v) :: rest) =
        .error (.unknownDirective ("Error: invalid hydration directive \"" ++
          ("client:" ++ suffix) ++ "\". Supported hydration methods: " ++
          formatHydrationMethods reg))) ∧
    (∀ (entries : List (String × JSValue)) (dir : String),
      (entries.any (fun e => !(e.1 == "directive") && !(e.1 == "value"))) = false →
      getField entries "directive" = .str dir →
      reg.contains (firstSegment dir) = false →
      extractLoop reg st (("client:params", .obj entries) :: rest) =
        .error (.unknownDirective ("Error: invalid hydration directive \"" ++
          ("client:" ++ dir) ++ "\". Supported hydration methods: " ++
          formatHydrationMethods reg))) := by
  constructor
  · intro suffix v hres hcon
    refine extractLoop_cons_error ?_ rest
    rw [stringStep_canonical hres v reg,
      defaultCase_unknown (by rw [splitSecond_client_append]; exact hcon)]
  · intro entries dir hany hdir hcon
    refine extractLoop_cons_error ?_ rest
    rw [stringStep_params, paramsCase_valid hany hdir,
      defaultCase_unknown (by rw [splitSecond_client_append]; exact hcon)]

/-- Witness for claim C6: `client:weird` against the registry
`[load, idle]` fails with the specified message even though a later key
carries the registered directive `load`; the formatted method list is
exactly `client:load, client:idle`. -/
theorem C6_unknown_directive_witness :
    extractLoop ["load", "idle"] initExtracted
        [("client:" ++ "weird", JSValue.str "v"), ("client:load", JSValue.str "")] =
      .error (.unknownDirective ("Error: invalid hydration directive \"" ++
        ("client:" ++ "weird") ++ "\". Supported hydration methods: " ++
        formatHydrationMethods ["load", "idle"])) ∧
    formatHydrationMethods ["load", "idle"] = "client:load, client:idle" :=
  ⟨(C6_unknown_directive ["load", "idle"] initExtracted
      [("client:load", JSValue.str "")]).1 "weird" (JSValue.str "v") (by decide) (by decide),
    rfl⟩

/-- Claim C7: for the dispatched `client:media` key with `media`
registered, the step fails with the missing-media-query error exactly
when the argument is not a string; every string argument (the empty
string included) passes the check and extraction proceeds. -/
theorem C7_media_query_check (st : ExtractedProps) (reg : List String) (v : JSValue)
    (rest : List (String × JSValue)) (hreg : reg.contains "media" = true) :
    (stringStep st "client:media" v reg = .error .missingMediaQuery ↔ v.isString = false) ∧
    (v.isString = false →
      extractLoop reg st (("client:media", v) :: rest) = .error .missingMediaQuery) ∧
    (v.isString = true →
      extractLoop reg st (("client:media", v) :: rest) =
        extractLoop reg
          { st with hydration := some { (st.hydration.getD initHydration) with
              directive := "media", value := v } }
          rest) := by
  have hbase : stringStep st "client:media" v reg =
      defaultCase (ensureHyd st) (st.hydration.getD initHydration) "client:media" v reg := rfl
  have hsplit : splitSecond "client:media" = "media" := rfl
  have herr : v.isString = false →
      stringStep st "client:media" v reg = .error .missingMediaQuery := by
    intro hv
    rw [hbase, defaultCase_media_err hsplit (by rw [hsplit]; exact hreg) hv]
  have hok : v.isString = true → stringStep st "client:media" v reg = .ok
      { st with hydration := some { (st.hydration.getD initHydration) with
          directive := "media", value := v } } := by
    intro hv
    rw [hbase, defaultCase_accepts (by rw [hsplit]; exact hreg) (fun _ => hv)]
    rfl
  refine ⟨⟨?_, herr⟩, ?_, ?_⟩
  · intro he
    by_contra hv
    simp only [Bool.not_eq_false] at hv
    rw [hok hv] at he
    cases he
  · intro hv
    exact extractLoop_cons_error (herr hv) rest
  · intro hv
    exact extractLoop_cons_ok (hok hv) rest

/-- Witness for claim C7: the empty string is a string, so `client:media`
with an empty-string argument passes the check. -/
theorem C7_media_query_check_witness :
    extractLoop ["media"] initExtracted [("client:media", JSValue.str "")] =
      extractLoop ["media"]
        { initExtracted with hydration := some { initHydration with
            directive := "media", value := JSValue.str "" } } [] :=
  (C7_media_query_check initExtracted ["media"] (JSValue.str "") [] (by decide)).2.2 rfl

/-- Claim C2, counterexample: first, a nullish `client:params` is not
dropped with no effect — it lazily creates the hydration record, so the
result differs from the same bag without the key; second, a valid shape
whose directive field is the reserved suffix `component-path` is not
handled as if the key `client:component-path` had appeared (which would
set `componentUrl` and succeed) — the synthesized key falls directly
into the canonical default case and is rejected as an unknown
directive. -/
theorem C2_counterexample :
    ((extractDirectives ⟨[("client:params", JSValue.null)], []⟩ ["load"]).map
        (fun ex => ex.hydration.isSome) = .ok true ∧
      (extractDirectives ⟨[], []⟩ ["load"]).map (fun ex => ex.hydration.isSome) = .ok false) ∧
    (extractDirectives ⟨[("client:params",
        JSValue.obj [("directive", JSValue.str "component-path"),
          ("value", JSValue.str "u")])], []⟩ ["load"] =
      .error (.unknownDirective
        "Error: invalid hydration directive \"client:component-path\". Supported hydration methods: client:load") ∧
      extractDirectives ⟨[("client:component-path", JSValue.str "u")], []⟩ ["load"] =
        .ok ⟨false, some { initHydration with componentUrl := JSValue.str "u" }, [], []⟩) :=
  ⟨⟨rfl, rfl⟩, rfl, rfl⟩

/-- Claim C2 (amended): the `client:params` handling — a nullish value
contributes nothing beyond the lazy creation of the hydration record; a
non-object value fails with the invalid-value error; an object with a
key other than `directive`/`value` fails with the shape error; a
non-string (or missing) `directive` field fails with the directive-type
error; and a valid shape whose directive field is outside the reserved
suffixes behaves exactly as if the key `client:<directive-field>` with
the object's `value` field had appeared at that position (a reserved
directive field instead reaches the canonical default case directly and
is checked against the registry as a directive name). -/
theorem C2_params_rewrite (reg : List String) (st : ExtractedProps)
    (rest : List (String × JSValue)) :
    (∀ v : JSValue, isNullish v = true →
      extractLoop reg st (("client:params", v) :: rest) =
        extractLoop reg (ensureHyd st) rest) ∧
    (∀ v : JSValue, isNullish v = false → isObject v = false →
      extractLoop reg st (("client:params", v) :: rest) =
        .error (.invalidParamsNotObject v.typeName)) ∧
    (∀ entries : List (String × JSValue),
      (entries.any (fun e => !(e.1 == "directive") && !(e.1 == "value"))) = true →
      extractLoop reg st (("client:params", .obj entries) :: rest) =
        .error .invalidParamsShape) ∧
    (∀ entries : List (String × JSValue),
      (entries.any (fun e => !(e.1 == "directive") && !(e.1 == "value"))) = false →
      (getField entries "directive").isString = false →
      extractLoop reg st (("client:params", .obj entries) :: rest) =
        .error (.invalidParamsDirectiveNotString (getField entries "directive").typeName)) ∧
    (∀ (entries : List (String × JSValue)) (dir : String),
      (entries.any (fun e => !(e.1 == "directive") && !(e.1 == "value"))) = false →
      getField entries "directive" = .str dir →
      reservedSuffixes.contains dir = false →
      extractLoop reg st (("client:params", .obj entries) :: rest) =
        extractLoop reg st (("client:" ++ dir, getField entries "value") :: rest)) := by
  refine ⟨?_, ?_, ?_, ?_, ?_⟩
  · intro v hv
    refine extractLoop_cons_ok ?_ rest
    rw [stringStep_params]
    simp only [paramsCase, hv, if_true]
  · intro v h1 h2
    refine extractLoop_cons_error ?_ rest
    rw [stringStep_params]
    cases v with
    | undefined => simp [isNullish] at h1
    | null => simp [isNullish] at h1
    | obj entries => simp [isObject] at h2
    | bool b => rfl
    | num n => rfl
    | str s => rfl
  · intro entries hany
    refine extractLoop_cons_error ?_ rest
    rw [stringStep_params]
    simp only [paramsCase, isNullish, Bool.false_eq_true, if_false, hany, if_true]
  · intro entries hany hstr
    refine extractLoop_cons_error ?_ rest
    rw [stringStep_params]
    simp only [paramsCase, isNullish, Bool.false_eq_true, if_false, hany]
    generalize hgf : getField entries "directive" = gf at hstr ⊢
    cases gf with
    | str s => simp [JSValue.isString] at hstr
    | undefined => rfl
    | null => rfl
    | bool b => rfl
    | num n => rfl
    | obj o => rfl
  · intro entries dir hany hdir hres
    have hL : stringStep st "client:params" (.obj entries) reg =
        defaultCase (ensureHyd st) (st.hydration.getD initHydration)
          ("client:" ++ dir) (getField entries "value") reg := by
      rw [stringStep_params, paramsCase_valid hany hdir]
    have hR : stringStep st ("client:" ++ dir) (getField entries "value") reg =
        defaultCase (ensureHyd st) (st.hydration.getD initHydration)
          ("client:" ++ dir) (getField entries "value") reg :=
      stringStep_canonical hres _ reg
    cases hd : defaultCase (ensureHyd st) (st.hydration.getD initHydration)
        ("client:" ++ dir) (getField entries "value") reg with
    | ok st2 => rw [extractLoop_cons_ok (hL.trans hd), extractLoop_cons_ok (hR.trans hd)]
    | error e => rw [extractLoop_cons_error (hL.trans hd), extractLoop_cons_error (hR.trans hd)]

/-- Witness for the amended claim C2: the nullish skip and the canonical
rewrite at concrete inputs; `{directive: "idle"}` with `idle` registered
yields the directive name `idle` with an undefined argument. -/
theorem C2_params_rewrite_witness :
    extractLoop ["load"] initExtracted [("client:params", JSValue.null)] =
      extractLoop ["load"] (ensureHyd initExtracted) [] ∧
    extractLoop ["idle"] initExtracted
        [("client:params", JSValue.obj [("directive", JSValue.str "idle")])] =
      extractLoop ["idle"] initExtracted
        [("client:" ++ "idle", getField [("directive", JSValue.str "idle")] "value")] ∧
    extractDirectives ⟨[("client:params", JSValue.obj [("directive", JSValue.str "idle")])], []⟩
        ["idle"] =
      .ok ⟨false, some ⟨"idle", JSValue.undefined, JSValue.str "", JSValue.str ""⟩, [], []⟩ :=
  ⟨(C2_params_rewrite ["load"] initExtracted []).1 JSValue.null rfl,
    (C2_params_rewrite ["idle"] initExtracted []).2.2.2.2 [("directive", JSValue.str "idle")]
      "idle" rfl rfl (by decide),
    rfl⟩

theorem lookup_island_tail {key : String} (props : List (PKey × JSValue))
    (b : List (String × JSValue)) (cond : Prop) [Decidable cond]
    (vbh vopts : JSValue)
    (h3 : key ≠ "before-hydration-url") (h4 : key ≠ "opts")
    (h5 : ∀ n ∈ transitionDirectivesToCopyOnIsland, n ≠ key) :
    lookupProp (transitionDirectivesToCopyOnIsland.foldl
      (fun isl name =>
        if ((lookupProp props (.str name)).getD .undefined).truthy = true then
          setProp isl name ((lookupProp props (.str name)).getD .undefined)
        else isl)
      (setProp (if cond then setProp b "before-hydration-url" vbh else b) "opts" vopts))
      key =
      lookupProp b key := by
  rw [lookup_foldl_trans props _ _ h5, lookup_setProp_ne h4]
  by_cases hc : cond
  · rw [if_pos hc, lookup_setProp_ne h3]
  · rw [if_neg hc]

theorem isSome_island_tail {key : String} (props : List (PKey × JSValue))
    {b : List (String × JSValue)} (cond : Prop) [Decidable cond]
    (vbh vopts : JSValue) (hsome : (lookupProp b key).isSome = true) :
    (lookupProp (transitionDirectivesToCopyOnIsland.foldl
      (fun isl name =>
        if ((lookupProp props (.str name)).getD .undefined).truthy = true then
          setProp isl name ((lookupProp props (.str name)).getD .undefined)
        else isl)
      (setProp (if cond then setProp b "before-hydration-url" vbh else b) "opts" vopts))
      key).isSome = true := by
  refine isSome_foldl_trans props _ ?_
  refine isSome_lookup_setProp ?_ "opts" vopts
  by_cases hc : cond
  · rw [if_pos hc]
    exact isSome_lookup_setProp hsome _ _
  · rw [if_neg hc]
    exact hsome

/-- Claim C8, counterexample: caller-supplied extra attributes are copied
verbatim into the island, so a call whose `attrs` contain the key
`props` produces an island with a `props` attribute even though the
renderer has no client entry point and the export name is non-empty. -/
theorem C8_counterexample :
    ((generateHydrateScript ⟨id, fun _ _ => "", fun _ _ => "", id⟩ (fun _ => "")
        ⟨⟨none⟩, "uid1", [], some [("props", "x")]⟩
        ⟨"load", "/c.js", "default", "C", JSValue.undefined⟩).2.map
      (fun isl => (lookupProp isl.props "props").isSome)) = .ok true := rfl

/-- Claim C8 (amended): for every call whose renderer has no
`clientEntrypoint`, whose metadata has a non-empty `componentExport`
value, and whose caller-supplied extra attributes contain neither a
`props` nor a `renderer-url` key, the returned island has no `props` and
no `renderer-url` attribute but always has `ssr`, `client`, `uid`,
`component-url` and `opts` attributes — for every choice of the
collaborator functions. -/
theorem C8_server_only_island (C : Collaborators) (resolve : String → String)
    (so : HydrateScriptOptions) (metadata : ComponentMetadata)
    (hentry : so.renderer.clientEntrypoint = none)
    (hexp : metadata.componentExportValue ≠ "")
    (hattrs : ∀ kv ∈ so.attrs.getD [], kv.1 ≠ "props" ∧ kv.1 ≠ "renderer-url") :
    ∃ isl : SSRElement, (generateHydrateScript C resolve so metadata).2 = .ok isl ∧
      lookupProp isl.props "props" = none ∧
      lookupProp isl.props "renderer-url" = none ∧
      (lookupProp isl.props "ssr").isSome = true ∧
      (lookupProp isl.props "client").isSome = true ∧
      (lookupProp isl.props "uid").isSome = true ∧
      (lookupProp isl.props "component-url").isSome = true ∧
      (lookupProp isl.props "opts").isSome = true := by
  simp only [generateHydrateScript, hentry, truthyEntry, Bool.false_eq_true, if_false]
  rw [if_neg hexp]
  refine ⟨_, rfl, ?_, ?_, ?_, ?_, ?_, ?_, ?_⟩
  · rw [lookup_island_tail so.props _ _ _ _ (by decide) (by decide) (by decide),
      lookup_setProp_ne (by decide : ("props" : String) ≠ "client"),
      lookup_setProp_ne (by decide : ("props" : String) ≠ "ssr"),
      lookup_setProp_ne (by decide : ("props" : String) ≠ "component-url")]
    cases hA : so.attrs with
    | none => rfl
    | some attrs =>
      rw [lookup_foldl_attrs C.escapeHTML attrs _
        (fun kv h => (hattrs kv (by rw [hA]; exact h)).1)]
      rfl
  · rw [lookup_island_tail so.props _ _ _ _ (by decide) (by decide) (by decide),
      lookup_setProp_ne (by decide : ("renderer-url" : String) ≠ "client"),
      lookup_setProp_ne (by decide : ("renderer-url" : String) ≠ "ssr"),
      lookup_setProp_ne (by decide : ("renderer-url" : String) ≠ "component-url")]
    cases hA : so.attrs with
    | none => rfl
    | some attrs =>
      rw [lookup_foldl_attrs C.escapeHTML attrs _
        (fun kv h => (hattrs kv (by rw [hA]; exact h)).2)]
      rfl
  · refine isSome_island_tail so.props _ _ _ ?_
    rw [lookup_setProp_ne (by decide : ("ssr" : String) ≠ "client"), lookup_setProp_self]
    rfl
  · refine isSome_island_tail so.props _ _ _ ?_
    rw [lookup_setProp_self]
    rfl
  · refine isSome_island_tail so.props _ _ _ ?_
    refine isSome_lookup_setProp (isSome_lookup_setProp (isSome_lookup_setProp ?_ _ _) _ _) _ _
    cases hA : so.attrs with
    | none => rfl
    | some attrs => exact isSome_foldl_attrs C.escapeHTML attrs rfl
  · refine isSome_island_tail so.props _ _ _ ?_
    rw [lookup_setProp_ne (by decide : ("component-url" : String) ≠ "client"),
      lookup_setProp_ne (by decide : ("component-url" : String) ≠ "ssr"),
      lookup_setProp_self]
    rfl
  · refine isSome_foldl_trans so.props _ ?_
    rw [lookup_setProp_self]
    rfl

/-- Witness for the amended claim C8 at a concrete server-only call. -/
theorem C8_server_only_island_witness :
    ∃ isl : SSRElement,
      (generateHydrateScript ⟨id, fun _ _ => "", fun _ _ => "", id⟩ (fun _ => "/r.js")
          ⟨⟨none⟩, "uid1", [], none⟩
          ⟨"load", "/c.js", "default", "C", JSValue.undefined⟩).2 = .ok isl ∧
      lookupProp isl.props "props" = none ∧
      lookupProp isl.props "renderer-url" = none ∧
      (lookupProp isl.props "ssr").isSome = true ∧
      (lookupProp isl.props "client").isSome = true ∧
      (lookupProp isl.props "uid").isSome = true ∧
      (lookupProp isl.props "component-url").isSome = true ∧
      (lookupProp isl.props "opts").isSome = true :=
  C8_server_only_island ⟨id, fun _ _ => "", fun _ _ => "", id⟩ (fun _ => "/r.js")
    ⟨⟨none⟩, "uid1", [], none⟩ ⟨"load", "/c.js", "default", "C", JSValue.undefined⟩
    rfl (by decide) (fun kv h => absurd h (List.not_mem_nil kv))

/-- Claim C9: a call whose metadata has an empty `componentExport` value
fails with the missing-component-export error (`NoMatchingImport` in the
source) and the resolution trace is empty: no `result.resolve` call is
made on this error path. -/
theorem C9_missing_export (C : Collaborators) (resolve : String → String)
    (so : HydrateScriptOptions) (metadata : ComponentMetadata)
    (hexp : metadata.componentExportValue = "") :
    generateHydrateScript C resolve so metadata =
      ([], .error (.noMatchingImport metadata.displayName)) := by
  simp [generateHydrateScript, hexp]

/-- Witness for claim C9 at a concrete call with an empty export name. -/
theorem C9_missing_export_witness :
    generateHydrateScript ⟨id, fun _ _ => "", fun _ _ => "", id⟩ (fun s => s)
        ⟨⟨some "/entry.js"⟩, "uid1", [], none⟩ ⟨"load", "/c.js", "", "C", JSValue.undefined⟩ =
      ([], .error (.noMatchingImport "C")) :=
  C9_missing_export ⟨id, fun _ _ => "", fun _ _ => "", id⟩ (fun s => s)
    ⟨⟨some "/entry.js"⟩, "uid1", [], none⟩ ⟨"load", "/c.js", "", "C", JSValue.undefined⟩ rfl

end AstroHydration
